import Mathlib

/-!
Shallow embedding of the repository `ERA5-land_processing`
(file `API&aggregate_ERA5_land.py`), together with theorems settling the
specification claims about it.

The file has two procedures:
* `api_era5_land` — enumerates the (year, month) pairs between a start and an
  end date and issues one retrieval request per month to the Copernicus CDS,
  writing one grib file per month;
* `aggregate_era5_land_timeseries` — for each year of an inclusive range,
  globs the monthly grib files previously written, opens them, reshapes the
  two time-like dimensions into the single `valid_time` dimension, filters to
  the year, sorts by `valid_time`, drops all-missing rows, and concatenates
  the per-year results; optionally saves the combined dataset.

Modelling conventions:
* Python `int` values are modelled as `Nat` (all quantities here are
  non-negative); `datetime(y, m, 1)` values are modelled as the pair
  `(y, m)` with the lexicographic order used by `datetime` comparison.
  The `datetime.MAXYEAR` bound is not modelled.
* Timestamps (`valid_time` values) are modelled as `Time`, a calendar year
  together with an offset inside the year, ordered lexicographically — this
  captures exactly the two facts the code uses about timestamps: they are
  totally ordered, and `dt.year` is monotone with respect to that order.
* An xarray dataset indexed by `valid_time` is modelled as a list of `Row`s
  (one per `valid_time` label); a row's `vals` are the values of all
  variables (flattened over the spatial grid) at that label, `none` meaning
  NaN/missing.  The external xarray calls `open_mfdataset`/`stack`/
  `swap_dims` are modelled as producing the rows contained in the matched
  files; the repository's own logic (filter, sort, dropna, concat, save)
  is embedded step by step.
* Filesystem: the input directory is a listing `List FsFile` (basename and
  row content).  `glob.glob` returns the matching names in unspecified
  order; the code then applies `sorted`, embedded with `List.mergeSort` on
  the lexicographic string order.
-/

namespace ERA5

/-! ### Calendar helpers (Python `calendar` module, as used by the code) -/

/-- Python `calendar.isleap(year)` from CPython: `year % 4 == 0 and (year % 100 != 0 or year % 400 == 0)`. -/
def isleap (y : Nat) : Bool :=
  y % 4 == 0 && (y % 100 != 0 || y % 400 == 0)

/-- CPython's `calendar.mdays` table (index 0 unused). -/
def mdays : List Nat := [0, 31, 28, 31, 30, 31, 30, 31, 31, 30, 31, 30, 31]

/-- Value of `calendar.monthrange(year, month)[1]`: `mdays[month] + (month == 2 and isleap(year))`. -/
def monthrange_snd (y m : Nat) : Nat :=
  mdays.getD m 0 + (if m == 2 && isleap y then 1 else 0)

/-- Python `f"{n:02d}"` for a non-negative `n`: zero-pad the decimal form to width 2. -/
def fmt02 (n : Nat) : String :=
  if n < 10 then "0" ++ toString n else toString n

/-! ### The Fetcher `api_era5_land` -/

/-- The loop
```
while current <= end_date:
    date_list.append((current.year, current.month))
    if current.month == 12: current = datetime(current.year + 1, 1, 1)
    else: current = datetime(current.year, current.month + 1, 1)
```
embedded with explicit fuel.  The guard `current <= end_date` is the
lexicographic comparison of `datetime(cy, cm, 1)` with `datetime(ey, em, 1)`.
For calendar-valid months (`1 ≤ cm ≤ 12`, `1 ≤ em ≤ 12`) the fuel chosen in
`date_list` below never truncates the loop: the guard becomes false exactly
when the fuel runs out (`dateListAux_eq_map_range'`), so this is the loop
itself, not an approximation. -/
def dateListAux : Nat → Nat → Nat → Nat → Nat → List (Nat × Nat)
  | 0, _, _, _, _ => []
  | fuel + 1, cy, cm, ey, em =>
    if cy < ey ∨ (cy = ey ∧ cm ≤ em) then
      (cy, cm) :: (if cm = 12 then dateListAux fuel (cy + 1) 1 ey em
                   else dateListAux fuel cy (cm + 1) ey em)
    else []

/-- The `date_list` built by `api_era5_land`: all `(year, month)` pairs from
`(start_year, start_month)` to `(end_year, end_month)` inclusive. -/
def date_list (sy sm ey em : Nat) : List (Nat × Nat) :=
  dateListAux (12 * ey + em + 1 - (12 * sy + sm)) sy sm ey em

/-- The list `days_list` built per month from `range(1, days_in_month + 1)`. -/
def days_list (y m : Nat) : List String :=
  (List.range' 1 (monthrange_snd y m)).map fmt02

/-- The hour strings `00:00` .. `23:00` built from `range(24)`. -/
def hours_list : List String :=
  (List.range 24).map (fun h => fmt02 h ++ ":00")

/-- The request dictionary passed to `client.retrieve` for one month.
The Python dict keys `variable`, `year`, `month`, `day`, `time`,
`data_format`, `download_format`, `area` are the fields below (`variable`
is named `vars` because `variable` is a Lean keyword). -/
structure Request where
  vars : List String
  year : String
  month : String
  day : List String
  time : List String
  data_format : String
  download_format : String
  area : List Int
deriving DecidableEq, Repr

/-- The request built in the body of the `for year, month in date_list` loop. -/
def mkRequest (vnames : List String) (area : List Int) (y m : Nat) : Request :=
  { vars := vnames
    year := toString y
    month := fmt02 m
    day := days_list y m
    time := hours_list
    data_format := "grib"
    download_format := "unarchived"
    area := area }

/-- The basename of the file the Fetcher writes for `(y, m)`:
`f"{year}_months{month_str}_europe.grib"`. -/
def fetchBaseName (y m : Nat) : String :=
  toString y ++ "_months" ++ fmt02 m ++ "_europe.grib"

/-- The full target path written by the Fetcher. -/
def api_target (target_path : String) (y m : Nat) : String :=
  target_path ++ "/" ++ fetchBaseName y m

/-- The Fetcher `api_era5_land`, as the sequence of `(request, target)` pairs passed to
`client.retrieve("reanalysis-era5-land", request, target)`, one per element
of `date_list`, in order. -/
def api_era5_land (target_path : String) (sy sm ey em : Nat)
    (vnames : List String) (area : List Int) : List (Request × String) :=
  (date_list sy sm ey em).map
    (fun ym => (mkRequest vnames area ym.1 ym.2, api_target target_path ym.1 ym.2))

/-! ### Spec-side calendar notions (for claim C1).

These two definitions are written from the specification's words — "the true
number of days in that (year, month), including 29 for February in leap
years" and "exactly one request per calendar month in the inclusive range" —
to be compared with the code-derived definitions above. -/

/-- Modelled from the spec: the true number of days of a Gregorian calendar
month (February has 29 days in leap years, 28 otherwise). -/
def trueDaysInMonth (y m : Nat) : Nat :=
  if m = 2 then (if (y % 4 = 0 ∧ y % 100 ≠ 0) ∨ y % 400 = 0 then 29 else 28)
  else if m = 4 ∨ m = 6 ∨ m = 9 ∨ m = 11 then 30
  else 31

/-- Modelled from the spec: the calendar months of the inclusive range,
one per month, listed by their absolute month index `12 * year + month`. -/
def monthsInRange (sy sm ey em : Nat) : List (Nat × Nat) :=
  (List.range' (12 * sy + sm) (12 * ey + em + 1 - (12 * sy + sm))).map
    (fun k => ((k - 1) / 12, (k - 1) % 12 + 1))

/-! ### The Aggregator `aggregate_era5_land_timeseries`: data model -/

/-- A `valid_time` timestamp: a calendar year (`.dt.year`) and an offset
inside the year, ordered lexicographically.  This captures what the code
uses about timestamps: a total order under which the calendar year is
monotone. -/
structure Time where
  year : Nat
  tick : Nat
deriving DecidableEq, Repr

/-- Order on timestamps. -/
def Time.le (a b : Time) : Prop :=
  a.year < b.year ∨ (a.year = b.year ∧ a.tick ≤ b.tick)

/-- Strict order on timestamps. -/
def Time.lt (a b : Time) : Prop :=
  a.year < b.year ∨ (a.year = b.year ∧ a.tick < b.tick)

instance (a b : Time) : Decidable (Time.le a b) :=
  inferInstanceAs (Decidable (_ ∨ _))

instance (a b : Time) : Decidable (Time.lt a b) :=
  inferInstanceAs (Decidable (_ ∨ _))

/-- One `valid_time` label of a dataset: its timestamp and the values of all
variables at that label (flattened over the remaining dimensions), `none`
meaning NaN/missing. -/
structure Row where
  valid_time : Time
  vals : List (Option Int)
deriving DecidableEq, Repr

/-- A row is dropped by `dropna(dim="valid_time", how="all")` iff every value
at its label is missing. -/
def Row.allMissing (r : Row) : Bool :=
  r.vals.all (fun v => v.isNone)

/-- Boolean comparison of rows by timestamp, used for `sortby("valid_time")`. -/
def rowLe (a b : Row) : Bool :=
  decide (Time.le a.valid_time b.valid_time)

/-- One file of the input directory: its basename and the rows it contains
(the labels and values the xarray open/stack/swap pipeline extracts from it). -/
structure FsFile where
  name : String
  rows : List Row
deriving DecidableEq, Repr

/-- Boolean test of whether `name` matches the glob pattern
`f"{year}_months*_europe.grib"` (the `*` matches any, possibly empty,
character sequence; the matched basenames contain no slash). -/
def matchesYear (y : Nat) (name : String) : Bool :=
  ((toString y ++ "_months").toList.isPrefixOf name.toList)
    && ((("_europe.grib" : String)).toList.isSuffixOf name.toList)
    && ((toString y ++ "_months").toList.length + ("_europe.grib" : String).toList.length
          ≤ name.toList.length)

/-- Boolean comparison of files by name, used for `sorted(glob.glob(...))`
(Python sorts the matched names lexicographically; the file contents ride
along with their names). -/
def fileLe (a b : FsFile) : Bool :=
  decide (a.name ≤ b.name)

/-- The sorted list of files of the directory matching a year's pattern:
`sorted(glob.glob(f"{inputs}/{year}_months*_europe.grib"))`. -/
def globFiles (dir : List FsFile) (y : Nat) : List FsFile :=
  (dir.filter (fun f => matchesYear y f.name)).mergeSort fileLe

/-- The per-year cleaning steps of the Aggregator, applied to the rows of
the year's opened files:
```
ds_ready = ds_ready.where(ds_ready.valid_time.dt.year == year, drop=True)
ds_ready = ds_ready.sortby("valid_time")
ds_ready = ds_ready.dropna(dim="valid_time", how="all")
``` -/
def processYear (year : Nat) (rows : List Row) : List Row :=
  (((rows.filter (fun r => r.valid_time.year == year)).mergeSort rowLe).filter
    (fun r => !r.allMissing))

/-- One iteration of the `for year in range(start_year, end_year + 1)` loop.
The state is the accumulated rows of `ds_variable` together with the list of
messages printed so far.  The `if ds_variable: concat else overwrite` branch
is modelled as list append: the accumulator is only ever overwritten while it
holds no rows, in which case append and overwrite agree on the row content. -/
def yearStep (inputs : String) (dir : List FsFile) (st : List Row × List String)
    (year : Nat) : List Row × List String :=
  let files := globFiles dir year
  if files.isEmpty then
    (st.1, st.2 ++ ["No file for year " ++ toString year ++ " found in " ++ inputs])
  else
    let ready := processYear year ((files.map FsFile.rows).flatten)
    (st.1 ++ ready,
     st.2 ++ ["Opening GRIB files for year " ++ toString year ++ "...",
              "Processing year " ++ toString year ++ " ...",
              "Filtering data for year " ++ toString year ++ " ...",
              "Concatenating datasets..."])

/-- Python `range(start_year, end_year + 1)`. -/
def yearsRange (sy ey : Nat) : List Nat :=
  List.range' sy (ey + 1 - sy)

/-- The name of the single output file written when `save` is true:
`f"{outputs}/inflows_var_era5_{start_year}to{end_year}.nc"`. -/
def outName (outputs : String) (sy ey : Nat) : String :=
  outputs ++ "/inflows_var_era5_" ++ toString sy ++ "to" ++ toString ey ++ ".nc"

/-- The observable result of a run of the Aggregator: the returned dataset
(its rows along `valid_time`), the output files written, and the messages
printed. -/
structure AggResult where
  ds : List Row
  written : List String
  log : List String
deriving DecidableEq, Repr

/-- The Aggregator `aggregate_era5_land_timeseries`.  `dir` is the listing
of the input directory `inputs`. -/
def aggregate_era5_land_timeseries (inputs : String) (dir : List FsFile)
    (outputs : String) (sy ey : Nat) (save : Bool) : AggResult :=
  let st := (yearsRange sy ey).foldl (yearStep inputs dir) ([], [])
  { ds := st.1
    written := if save then [outName outputs sy ey] else []
    log := st.2 }

/-- The rows a single year contributes to the combined dataset: nothing when
no file matches, the cleaned rows of the matched files otherwise. -/
def perYearRows (dir : List FsFile) (year : Nat) : List Row :=
  let files := globFiles dir year
  if files.isEmpty then []
  else processYear year ((files.map FsFile.rows).flatten)

/-! ## Theorems -/

/-! ### Characterization of the Fetcher's month walk -/

/-- The leap-year test of `calendar.isleap` agrees with the Gregorian rule. -/
theorem isleap_iff (y : Nat) :
    isleap y = true ↔ ((y % 4 = 0 ∧ y % 100 ≠ 0) ∨ y % 400 = 0) := by
  simp only [isleap, Bool.and_eq_true, beq_iff_eq, Bool.or_eq_true, bne_iff_ne, ne_eq]
  omega

/-- For a calendar-valid month, `calendar.monthrange(y, m)[1]` is the true
number of days of the month. -/
theorem monthrange_snd_eq_trueDays (y m : Nat) (h1 : 1 ≤ m) (h2 : m ≤ 12) :
    monthrange_snd y m = trueDaysInMonth y m := by
  interval_cases m
  · rfl
  · by_cases h : (y % 4 = 0 ∧ y % 100 ≠ 0) ∨ y % 400 = 0
    · have hl : isleap y = true := (isleap_iff y).2 h
      simp [monthrange_snd, trueDaysInMonth, mdays, hl, h]
    · have hl : ¬ isleap y = true := fun hh => h ((isleap_iff y).1 hh)
      simp [monthrange_snd, trueDaysInMonth, mdays, hl, h]
  all_goals rfl

/-- The month walk of `api_era5_land`, unrolled: starting from a valid month
it enumerates exactly the consecutive absolute month indices, and the fuel
chosen in `date_list` runs out exactly when the loop guard turns false. -/
theorem dateListAux_eq_map_range' (fuel : Nat) :
    ∀ (cy cm ey em : Nat), 1 ≤ cm → cm ≤ 12 → 1 ≤ em → em ≤ 12 →
    fuel = 12 * ey + em + 1 - (12 * cy + cm) →
    dateListAux fuel cy cm ey em =
      (List.range' (12 * cy + cm) fuel).map (fun k => ((k - 1) / 12, (k - 1) % 12 + 1)) := by
  induction fuel with
  | zero => intro cy cm ey em _ _ _ _ _; rfl
  | succ fuel ih =>
    intro cy cm ey em h1 h2 h3 h4 hfuel
    have hguard : cy < ey ∨ (cy = ey ∧ cm ≤ em) := by omega
    have hhead : ((12 * cy + cm - 1) / 12, (12 * cy + cm - 1) % 12 + 1) = (cy, cm) := by
      have hd : (12 * cy + cm - 1) / 12 = cy := by omega
      have hm : (12 * cy + cm - 1) % 12 + 1 = cm := by omega
      rw [hd, hm]
    rw [List.range'_succ, List.map_cons, hhead]
    simp only [dateListAux, if_pos hguard]
    by_cases hcm : cm = 12
    · subst hcm
      rw [if_pos rfl, ih (cy + 1) 1 ey em (by omega) (by omega) h3 h4 (by omega)]
      have : 12 * (cy + 1) + 1 = 12 * cy + 12 + 1 := by omega
      rw [this]
    · rw [if_neg hcm, ih cy (cm + 1) ey em (by omega) (by omega) h3 h4 (by omega),
        ← Nat.add_assoc]

/-- For valid start and end months, `date_list` is exactly the spec-side
enumeration of the calendar months of the inclusive range. -/
theorem date_list_eq_monthsInRange (sy sm ey em : Nat)
    (h1 : 1 ≤ sm) (h2 : sm ≤ 12) (h3 : 1 ≤ em) (h4 : em ≤ 12) :
    date_list sy sm ey em = monthsInRange sy sm ey em :=
  dateListAux_eq_map_range' _ sy sm ey em h1 h2 h3 h4 rfl

/-- Every month appearing in `date_list` is calendar-valid. -/
theorem date_list_month_bounds (sy sm ey em : Nat)
    (h1 : 1 ≤ sm) (h2 : sm ≤ 12) (h3 : 1 ≤ em) (h4 : em ≤ 12) :
    ∀ p ∈ date_list sy sm ey em, 1 ≤ p.2 ∧ p.2 ≤ 12 := by
  intro p hp
  rw [date_list_eq_monthsInRange sy sm ey em h1 h2 h3 h4] at hp
  rcases List.mem_map.1 hp with ⟨k, _, rfl⟩
  omega

/-- The day list built for a month has as many entries as the month has days. -/
theorem days_list_length (y m : Nat) : (days_list y m).length = monthrange_snd y m := by
  simp [days_list]

/-- C1: for every request range with valid months and start ≤ end, the
Fetcher issues exactly one retrieval request per calendar month of the
inclusive range (walking month-by-month with rollover at December), and each
request carries a day list whose length is the true number of days of that
month, including 29 for leap-year February (`trueDaysInMonth`). -/
theorem C1_one_request_per_month (tp : String) (vnames : List String) (area : List Int)
    (sy sm ey em : Nat) (h1 : 1 ≤ sm) (h2 : sm ≤ 12) (h3 : 1 ≤ em) (h4 : em ≤ 12)
    (_h5 : sy < ey ∨ (sy = ey ∧ sm ≤ em)) :
    (api_era5_land tp sy sm ey em vnames area).length
        = 12 * ey + em + 1 - (12 * sy + sm)
    ∧ (api_era5_land tp sy sm ey em vnames area).map
          (fun p => (p.1.year, p.1.month, p.1.day.length))
        = (monthsInRange sy sm ey em).map
          (fun ym => (toString ym.1, fmt02 ym.2, trueDaysInMonth ym.1 ym.2)) := by
  have hdl := date_list_eq_monthsInRange sy sm ey em h1 h2 h3 h4
  constructor
  · simp [api_era5_land, hdl, monthsInRange]
  · rw [api_era5_land, hdl, List.map_map]
    apply List.map_congr_left
    intro ym hym
    rcases List.mem_map.1 hym with ⟨k, _, rfl⟩
    simp only [Function.comp_apply, mkRequest]
    rw [days_list_length, monthrange_snd_eq_trueDays]
    · omega
    · omega

/-- Witness for C1 at the concrete range 2020-01 .. 2020-02 (leap February). -/
theorem C1_one_request_per_month_witness :
    (api_era5_land "d" 2020 1 2020 2 ["2m_temperature"] [90, -180, -90, 180]).length
        = 12 * 2020 + 2 + 1 - (12 * 2020 + 1)
    ∧ (api_era5_land "d" 2020 1 2020 2 ["2m_temperature"] [90, -180, -90, 180]).map
          (fun p => (p.1.year, p.1.month, p.1.day.length))
        = (monthsInRange 2020 1 2020 2).map
          (fun ym => (toString ym.1, fmt02 ym.2, trueDaysInMonth ym.1 ym.2)) :=
  C1_one_request_per_month "d" ["2m_temperature"] [90, -180, -90, 180] 2020 1 2020 2
    (by omega) (by omega) (by omega) (by omega) (Or.inr ⟨rfl, by omega⟩)

/-! ### Basic facts about the timestamp order -/

theorem Time.le_trans {a b c : Time} (h1 : Time.le a b) (h2 : Time.le b c) :
    Time.le a c := by
  rcases a with ⟨y1, t1⟩; rcases b with ⟨y2, t2⟩; rcases c with ⟨y3, t3⟩
  simp only [Time.le] at *
  omega

theorem Time.le_total' (a b : Time) : Time.le a b ∨ Time.le b a := by
  rcases a with ⟨y1, t1⟩; rcases b with ⟨y2, t2⟩
  simp only [Time.le]
  omega

theorem Time.lt_of_le_of_ne {a b : Time} (h1 : Time.le a b) (h2 : a ≠ b) :
    Time.lt a b := by
  rcases a with ⟨y1, t1⟩; rcases b with ⟨y2, t2⟩
  simp only [Time.le, Time.lt, ne_eq, Time.mk.injEq, not_and] at *
  omega

theorem rowLe_trans (a b c : Row) (h1 : rowLe a b) (h2 : rowLe b c) : rowLe a c := by
  simp only [rowLe, decide_eq_true_eq] at *
  exact Time.le_trans h1 h2

theorem rowLe_total (a b : Row) : rowLe a b || rowLe b a := by
  simp only [rowLe, Bool.or_eq_true, decide_eq_true_eq]
  exact Time.le_total' a.valid_time b.valid_time

/-! ### Structure of the Aggregator's year loop -/

/-- Unrolling the year loop: the accumulated rows are the concatenation of
the per-year contributions, in the order the years are processed. -/
theorem foldl_yearStep_fst (inputs : String) (dir : List FsFile) :
    ∀ (ys : List Nat) (st : List Row × List String),
    (ys.foldl (yearStep inputs dir) st).1 = st.1 ++ ys.flatMap (perYearRows dir) := by
  intro ys
  induction ys with
  | nil => intro st; simp
  | cons y t ih =>
    intro st
    rw [List.foldl_cons, ih, List.flatMap_cons]
    by_cases h : (globFiles dir y).isEmpty <;>
      simp [yearStep, perYearRows, h, List.append_assoc]

/-- The dataset returned by the Aggregator is the concatenation of the
per-year contributions over the inclusive year range. -/
theorem aggregate_ds_eq (inputs : String) (dir : List FsFile) (outputs : String)
    (sy ey : Nat) (save : Bool) :
    (aggregate_era5_land_timeseries inputs dir outputs sy ey save).ds
      = (yearsRange sy ey).flatMap (perYearRows dir) := by
  simp [aggregate_era5_land_timeseries, foldl_yearStep_fst]

/-- Membership in the output of the per-year cleaning: exactly the input
rows of the processed year that are not all-missing. -/
theorem mem_processYear (year : Nat) (rows : List Row) (r : Row) :
    r ∈ processYear year rows
      ↔ r ∈ rows ∧ r.valid_time.year = year ∧ r.allMissing = false := by
  unfold processYear
  rw [List.mem_filter, (List.mergeSort_perm _ rowLe).mem_iff, List.mem_filter]
  simp only [beq_iff_eq, Bool.not_eq_eq_eq_not, Bool.not_true]
  tauto

/-- The output of the per-year cleaning is sorted by timestamp. -/
theorem processYear_sorted (year : Nat) (rows : List Row) :
    (processYear year rows).Pairwise
      (fun a b : Row => Time.le a.valid_time b.valid_time) := by
  unfold processYear
  have hs : (((rows.filter (fun r => r.valid_time.year == year)).mergeSort rowLe)).Pairwise
      (fun a b : Row => rowLe a b) :=
    List.sorted_mergeSort rowLe_trans rowLe_total _
  exact ((hs.filter _).imp (fun h => by
    simpa only [rowLe, decide_eq_true_eq] using h))

/-- C4: for each processed year, the per-year cleaned structure retains only
rows whose calendar year is the year under processing, is sorted by
timestamp ascending, and retains no row all of whose variables are missing. -/
theorem C4_per_year_cleaned (year : Nat) (rows : List Row) :
    (∀ r ∈ processYear year rows, r.valid_time.year = year)
    ∧ (processYear year rows).Pairwise
        (fun a b : Row => Time.le a.valid_time b.valid_time)
    ∧ (∀ r ∈ processYear year rows, r.allMissing = false) := by
  refine ⟨fun r hr => ((mem_processYear year rows r).1 hr).2.1,
    processYear_sorted year rows,
    fun r hr => ((mem_processYear year rows r).1 hr).2.2⟩

/-- C3 (counterexample): the per-year cleaning performs no deduplication —
`sortby` followed by `dropna` keeps duplicate timestamps.  With two input
rows carrying the same timestamp (and non-missing values), both survive, so
the year's slice is not strictly increasing. -/
theorem C3_counterexample_no_dedup :
    ¬ (processYear 2010 [⟨⟨2010, 0⟩, [some 0]⟩, ⟨⟨2010, 0⟩, [some 0]⟩]).Pairwise
        (fun a b : Row => Time.lt a.valid_time b.valid_time) := by
  have h2 : List.mergeSort [(⟨⟨2010, 0⟩, [some 0]⟩ : Row), ⟨⟨2010, 0⟩, [some 0]⟩] rowLe
      = [⟨⟨2010, 0⟩, [some 0]⟩, ⟨⟨2010, 0⟩, [some 0]⟩] :=
    List.mergeSort_of_sorted (by decide)
  have hp : processYear 2010 [⟨⟨2010, 0⟩, [some 0]⟩, ⟨⟨2010, 0⟩, [some 0]⟩]
      = [⟨⟨2010, 0⟩, [some 0]⟩, ⟨⟨2010, 0⟩, [some 0]⟩] := by
    unfold processYear
    rw [show ([⟨⟨2010, 0⟩, [some 0]⟩, ⟨⟨2010, 0⟩, [some 0]⟩] : List Row).filter
          (fun r => r.valid_time.year == 2010)
        = [⟨⟨2010, 0⟩, [some 0]⟩, ⟨⟨2010, 0⟩, [some 0]⟩] from rfl, h2]
    rfl
  rw [hp]
  intro h
  have hlt := (List.pairwise_cons.1 h).1 _ (List.mem_cons_self _ _)
  simp [Time.lt] at hlt

/-- With pairwise-distinct input timestamps, the per-year cleaning output is
strictly increasing in timestamp. -/
theorem processYear_strict_of_nodup (year : Nat) (rows : List Row)
    (hnd : (rows.map Row.valid_time).Nodup) :
    (processYear year rows).Pairwise
      (fun a b : Row => Time.lt a.valid_time b.valid_time) := by
  have hle := processYear_sorted year rows
  have hsub1 : List.Sublist (rows.filter (fun r => r.valid_time.year == year)) rows :=
    List.filter_sublist _
  have hnd1 : ((rows.filter (fun r => r.valid_time.year == year)).map Row.valid_time).Nodup :=
    List.Nodup.sublist (hsub1.map Row.valid_time) hnd
  have hperm :
      (((rows.filter (fun r => r.valid_time.year == year)).mergeSort rowLe).map Row.valid_time).Perm
        ((rows.filter (fun r => r.valid_time.year == year)).map Row.valid_time) :=
    (List.mergeSort_perm _ rowLe).map _
  have hnd2 := (List.Perm.nodup_iff hperm).2 hnd1
  have hnd3 : ((processYear year rows).map Row.valid_time).Nodup :=
    List.Nodup.sublist ((List.filter_sublist _).map Row.valid_time) hnd2
  have hne : (processYear year rows).Pairwise
      (fun a b : Row => a.valid_time ≠ b.valid_time) :=
    List.pairwise_map.1 hnd3
  exact (hle.and hne).imp (fun h => Time.lt_of_le_of_ne h.1 h.2)

/-- C3 (amended): within each processed year's slice, after the per-year
sort and all-missing drop, timestamps are non-decreasing; and whenever the
input timestamps are pairwise distinct, they are strictly increasing and
unique.  (The code performs no deduplication, so for inputs with duplicated
timestamps the duplicates remain — see `C3_counterexample_no_dedup`.) -/
theorem C3_amended_sorted_strict_of_nodup (year : Nat) (rows : List Row) :
    (processYear year rows).Pairwise
        (fun a b : Row => Time.le a.valid_time b.valid_time)
    ∧ ((rows.map Row.valid_time).Nodup →
        (processYear year rows).Pairwise
          (fun a b : Row => Time.lt a.valid_time b.valid_time)) :=
  ⟨processYear_sorted year rows, fun hnd => processYear_strict_of_nodup year rows hnd⟩

/-- Witness for the amended C3 at a concrete two-row input with distinct
timestamps (given out of order). -/
theorem C3_amended_sorted_strict_of_nodup_witness :
    (processYear 2010 [⟨⟨2010, 5⟩, [some 1]⟩, ⟨⟨2010, 3⟩, [none, some 2]⟩]).Pairwise
        (fun a b : Row => Time.le a.valid_time b.valid_time)
    ∧ (processYear 2010 [⟨⟨2010, 5⟩, [some 1]⟩, ⟨⟨2010, 3⟩, [none, some 2]⟩]).Pairwise
        (fun a b : Row => Time.lt a.valid_time b.valid_time) :=
  ⟨(C3_amended_sorted_strict_of_nodup 2010
      [⟨⟨2010, 5⟩, [some 1]⟩, ⟨⟨2010, 3⟩, [none, some 2]⟩]).1,
   (C3_amended_sorted_strict_of_nodup 2010
      [⟨⟨2010, 5⟩, [some 1]⟩, ⟨⟨2010, 3⟩, [none, some 2]⟩]).2 (by decide)⟩

/-! ### Missing years are skipped (C5) -/

/-- Messages printed before the loop reaches a year are still in the log at
the end of the loop. -/
theorem mem_snd_foldl_yearStep (inputs : String) (dir : List FsFile) :
    ∀ (ys : List Nat) (st : List Row × List String) (s : String),
      s ∈ st.2 → s ∈ (ys.foldl (yearStep inputs dir) st).2 := by
  intro ys
  induction ys with
  | nil => intro st s h; exact h
  | cons a t ih =>
    intro st s h
    apply ih
    by_cases hg : (globFiles dir a).isEmpty = true <;>
      simp [yearStep, hg, h]

/-- If a year of the loop has no matching file, its diagnostic message is in
the final log. -/
theorem msg_mem_foldl_yearStep (inputs : String) (dir : List FsFile) (y : Nat)
    (hg : (globFiles dir y).isEmpty = true) :
    ∀ (ys : List Nat) (st : List Row × List String), y ∈ ys →
      ("No file for year " ++ toString y ++ " found in " ++ inputs)
        ∈ (ys.foldl (yearStep inputs dir) st).2 := by
  intro ys
  induction ys with
  | nil => intro st h; cases h
  | cons a t ih =>
    intro st hmem
    rcases List.mem_cons.1 hmem with h | h
    · subst h
      rw [List.foldl_cons]
      apply mem_snd_foldl_yearStep
      simp [yearStep, hg]
    · exact ih _ h

/-- A function mapping `y` to `[]` can be restricted away from `y` under
`flatMap`. -/
theorem flatMap_filter_ne {α β : Type} [DecidableEq α] (f : α → List β) (y : α)
    (hf : f y = []) :
    ∀ l : List α, l.flatMap f = (l.filter (fun z => !(z == y))).flatMap f := by
  intro l
  induction l with
  | nil => rfl
  | cons a t ih =>
    by_cases h : a = y
    · subst h
      simp [hf, ih]
    · simp [List.filter_cons, h, ih]

/-- C5: a year of the inclusive range with no matching input file is skipped
without failing: the Aggregator prints the diagnostic message for it, that
year contributes nothing to the combined dataset, and every other year of
the range is still processed. -/
theorem C5_missing_year_skipped (inputs : String) (dir : List FsFile) (outputs : String)
    (sy ey y : Nat) (save : Bool) (h1 : sy ≤ y) (h2 : y ≤ ey)
    (hg : globFiles dir y = []) :
    (aggregate_era5_land_timeseries inputs dir outputs sy ey save).ds
        = ((yearsRange sy ey).filter (fun z => !(z == y))).flatMap (perYearRows dir)
    ∧ ("No file for year " ++ toString y ++ " found in " ++ inputs)
        ∈ (aggregate_era5_land_timeseries inputs dir outputs sy ey save).log := by
  have hg' : (globFiles dir y).isEmpty = true := by rw [hg]; rfl
  have hmem : y ∈ yearsRange sy ey := by
    rw [yearsRange, List.mem_range'_1]
    omega
  constructor
  · rw [aggregate_ds_eq]
    apply flatMap_filter_ne
    simp [perYearRows, hg]
  · exact msg_mem_foldl_yearStep inputs dir y hg' _ _ hmem

/-- Witness for C5: year 2011 of the range 2010..2012 has no file in a
directory holding a single 2010 file. -/
theorem C5_missing_year_skipped_witness :
    (aggregate_era5_land_timeseries "in" [⟨"2010_months01_europe.grib", []⟩] "out"
        2010 2012 true).ds
      = ((yearsRange 2010 2012).filter (fun z => !(z == 2011))).flatMap
          (perYearRows [⟨"2010_months01_europe.grib", []⟩])
    ∧ ("No file for year " ++ toString 2011 ++ " found in " ++ "in")
        ∈ (aggregate_era5_land_timeseries "in" [⟨"2010_months01_europe.grib", []⟩] "out"
            2010 2012 true).log :=
  C5_missing_year_skipped "in" [⟨"2010_months01_europe.grib", []⟩] "out"
    2010 2012 2011 true (by omega) (by omega)
    (by
      unfold globFiles
      rw [show List.filter (fun f => matchesYear 2011 f.name)
            [(⟨"2010_months01_europe.grib", []⟩ : FsFile)] = ([] : List FsFile) from rfl]
      simp)

/-! ### Determinism of the Aggregator (C6) -/

theorem fileLe_trans (a b c : FsFile) (h1 : fileLe a b) (h2 : fileLe b c) :
    fileLe a c := by
  simp only [fileLe, decide_eq_true_eq] at *
  exact le_trans h1 h2

theorem fileLe_total (a b : FsFile) : fileLe a b || fileLe b a := by
  simp only [fileLe, Bool.or_eq_true, decide_eq_true_eq]
  exact le_total a.name b.name

/-- Two sorted file lists that are permutations of each other and have
pairwise-distinct names are equal. -/
theorem eq_of_perm_of_sorted_nodup_names :
    ∀ {l₁ l₂ : List FsFile}, l₁.Perm l₂ →
      l₁.Pairwise (fun a b => fileLe a b) → l₂.Pairwise (fun a b => fileLe a b) →
      (l₁.map FsFile.name).Nodup → l₁ = l₂ := by
  intro l₁
  induction l₁ with
  | nil =>
    intro l₂ hp _ _ _
    exact hp.nil_eq
  | cons a t ih =>
    intro l₂ hp hs1 hs2 hnd
    cases l₂ with
    | nil => exact absurd hp.symm.nil_eq (by simp)
    | cons b u =>
      have hab : a = b := by
        by_contra hne
        have ha2 : a ∈ b :: u := hp.mem_iff.1 (List.mem_cons_self a t)
        have hb1 : b ∈ a :: t := hp.mem_iff.2 (List.mem_cons_self b u)
        have ha_u : a ∈ u := by
          rcases List.mem_cons.1 ha2 with h | h
          · exact absurd h hne
          · exact h
        have hb_t : b ∈ t := by
          rcases List.mem_cons.1 hb1 with h | h
          · exact absurd h.symm hne
          · exact h
        have le1 : fileLe a b := (List.pairwise_cons.1 hs1).1 b hb_t
        have le2 : fileLe b a := (List.pairwise_cons.1 hs2).1 a ha_u
        have hname : a.name = b.name := by
          simp only [fileLe, decide_eq_true_eq] at le1 le2
          exact le_antisymm le1 le2
        have : a.name ∉ t.map FsFile.name := (List.nodup_cons.1 hnd).1
        exact this (hname ▸ List.mem_map_of_mem FsFile.name hb_t)
      subst hab
      have ht : t.Perm u := hp.cons_inv
      have := ih ht (List.pairwise_cons.1 hs1).2 (List.pairwise_cons.1 hs2).2
        (List.nodup_cons.1 hnd).2
      rw [this]

/-- The sorted glob result depends only on the set of files in the
directory, not on the order the directory listing presents them. -/
theorem globFiles_perm (dir dir' : List FsFile) (hperm : dir.Perm dir')
    (hnd : (dir.map FsFile.name).Nodup) (y : Nat) :
    globFiles dir y = globFiles dir' y := by
  unfold globFiles
  apply eq_of_perm_of_sorted_nodup_names
  · exact ((List.mergeSort_perm _ fileLe).trans
      (hperm.filter _)).trans (List.mergeSort_perm _ fileLe).symm
  · exact List.sorted_mergeSort fileLe_trans fileLe_total _
  · exact List.sorted_mergeSort fileLe_trans fileLe_total _
  · have h1 : ((dir.filter (fun f => matchesYear y f.name)).map FsFile.name).Nodup :=
      List.Nodup.sublist ((List.filter_sublist _).map _) hnd
    exact (List.Perm.nodup_iff ((List.mergeSort_perm _ fileLe).map FsFile.name)).2 h1

/-- C6: the Aggregator is deterministic — on the same input directory
(same set of files, in whatever order the directory listing presents them),
the same year range and `save=True`, two runs produce identical results:
the same dataset, the same written file, the same log. -/
theorem C6_deterministic (inputs : String) (dir dir' : List FsFile) (outputs : String)
    (sy ey : Nat) (hperm : dir.Perm dir') (hnd : (dir.map FsFile.name).Nodup) :
    aggregate_era5_land_timeseries inputs dir outputs sy ey true
      = aggregate_era5_land_timeseries inputs dir' outputs sy ey true := by
  have hstep : ∀ (st : List Row × List String) (y : Nat),
      yearStep inputs dir st y = yearStep inputs dir' st y := by
    intro st y
    unfold yearStep
    rw [globFiles_perm dir dir' hperm hnd y]
  simp only [aggregate_era5_land_timeseries]
  rw [List.foldl_ext (yearStep inputs dir) (yearStep inputs dir') ([], [])
    (fun a b _ => hstep a b)]

/-- Witness for C6: a two-file directory listed in both orders. -/
theorem C6_deterministic_witness :
    aggregate_era5_land_timeseries "in"
        [⟨"2010_months01_europe.grib", [⟨⟨2010, 0⟩, [some 3]⟩]⟩,
         ⟨"2010_months02_europe.grib", [⟨⟨2010, 7⟩, [some 4]⟩]⟩] "out" 2010 2010 true
      = aggregate_era5_land_timeseries "in"
        [⟨"2010_months02_europe.grib", [⟨⟨2010, 7⟩, [some 4]⟩]⟩,
         ⟨"2010_months01_europe.grib", [⟨⟨2010, 0⟩, [some 3]⟩]⟩] "out" 2010 2010 true :=
  C6_deterministic "in"
    [⟨"2010_months01_europe.grib", [⟨⟨2010, 0⟩, [some 3]⟩]⟩,
     ⟨"2010_months02_europe.grib", [⟨⟨2010, 7⟩, [some 4]⟩]⟩]
    [⟨"2010_months02_europe.grib", [⟨⟨2010, 7⟩, [some 4]⟩]⟩,
     ⟨"2010_months01_europe.grib", [⟨⟨2010, 0⟩, [some 3]⟩]⟩]
    "out" 2010 2010 (by decide) (by decide)

/-! ### The save flag and the returned value (C9) -/

/-- C9: the Aggregator returns the in-memory combined dataset whether or not
saving is requested; with `save=True` it writes exactly the single output
file named from the year range, and with `save=False` it writes nothing. -/
theorem C9_returns_ds_and_save (inputs : String) (dir : List FsFile) (outputs : String)
    (sy ey : Nat) :
    (aggregate_era5_land_timeseries inputs dir outputs sy ey true).ds
        = (aggregate_era5_land_timeseries inputs dir outputs sy ey false).ds
    ∧ (aggregate_era5_land_timeseries inputs dir outputs sy ey true).written
        = [outName outputs sy ey]
    ∧ (aggregate_era5_land_timeseries inputs dir outputs sy ey false).written = [] :=
  ⟨rfl, rfl, rfl⟩

/-! ### Empty ranges (C10) -/

/-- C10: with `start_year > end_year` the Aggregator's year loop runs zero
times — it returns an empty dataset, prints nothing, still writes the (empty)
output file when `save=True` and writes nothing when `save=False`; and the
Fetcher issues zero requests whenever the start date is after the end date
in the `datetime` (lexicographic) order — both when the start year is
strictly greater and when the years are equal with an inverted month pair. -/
theorem C10_empty_range (inputs : String) (dir : List FsFile) (outputs : String)
    (tp : String) (vnames : List String) (area : List Int)
    (sy ey sm em : Nat) (save : Bool)
    (h1 : 1 ≤ sm) (h2 : sm ≤ 12) (h3 : 1 ≤ em) (h4 : em ≤ 12) :
    (ey < sy →
      (aggregate_era5_land_timeseries inputs dir outputs sy ey save).ds = []
      ∧ (aggregate_era5_land_timeseries inputs dir outputs sy ey save).log = []
      ∧ (aggregate_era5_land_timeseries inputs dir outputs sy ey true).written
          = [outName outputs sy ey]
      ∧ (aggregate_era5_land_timeseries inputs dir outputs sy ey false).written = [])
    ∧ (ey < sy ∨ (ey = sy ∧ em < sm) →
        api_era5_land tp sy sm ey em vnames area = []) := by
  constructor
  · intro hy
    have hn : ey + 1 - sy = 0 := by omega
    have hfold : (yearsRange sy ey).foldl (yearStep inputs dir) ([], [])
        = (([], []) : List Row × List String) := by
      simp [yearsRange, hn]
    refine ⟨?_, ?_, rfl, rfl⟩
    · simp [aggregate_era5_land_timeseries, hfold]
    · simp [aggregate_era5_land_timeseries, hfold]
  · intro hlex
    have hfuel : 12 * ey + em + 1 - (12 * sy + sm) = 0 := by omega
    unfold api_era5_land date_list
    rw [hfuel]
    rfl

/-- Witness for C10: the Aggregator clause at the inverted year range
2020 .. 2019, and the Fetcher clause at both an inverted year range
(2020-01 after 2019-12) and a same-year inverted month range
(2020-05 after 2020-03). -/
theorem C10_empty_range_witness :
    ((aggregate_era5_land_timeseries "in" [] "out" 2020 2019 true).ds = []
      ∧ (aggregate_era5_land_timeseries "in" [] "out" 2020 2019 true).log = []
      ∧ (aggregate_era5_land_timeseries "in" [] "out" 2020 2019 true).written
          = [outName "out" 2020 2019]
      ∧ (aggregate_era5_land_timeseries "in" [] "out" 2020 2019 false).written = [])
    ∧ api_era5_land "d" 2020 1 2019 12 ["2m_temperature"] [90, -180, -90, 180] = []
    ∧ api_era5_land "d" 2020 5 2020 3 ["2m_temperature"] [90, -180, -90, 180] = [] :=
  ⟨(C10_empty_range "in" [] "out" "d" ["2m_temperature"] [90, -180, -90, 180]
      2020 2019 1 12 true (by omega) (by omega) (by omega) (by omega)).1 (by omega),
   (C10_empty_range "in" [] "out" "d" ["2m_temperature"] [90, -180, -90, 180]
      2020 2019 1 12 true (by omega) (by omega) (by omega) (by omega)).2 (by omega),
   (C10_empty_range "in" [] "out" "d" ["2m_temperature"] [90, -180, -90, 180]
      2020 2020 5 3 true (by omega) (by omega) (by omega) (by omega)).2
     (Or.inr ⟨rfl, by omega⟩)⟩

/-! ### Decimal digit strings (groundwork for the filename claims C7, C8, C2) -/

/-- Digit characters emitted for values below 10 are never an underscore. -/
theorem digitChar_ne_underscore (n : Nat) (h : n < 10) : Nat.digitChar n ≠ '_' := by
  interval_cases n <;> decide

/-- No character produced by `Nat.toDigitsCore 10` is an underscore (beyond
those already in the accumulator). -/
theorem toDigitsCore_ne_underscore (fuel : Nat) :
    ∀ (n : Nat) (ds : List Char), (∀ c ∈ ds, c ≠ '_') →
      ∀ c ∈ Nat.toDigitsCore 10 fuel n ds, c ≠ '_' := by
  induction fuel with
  | zero => intro n ds hds; exact hds
  | succ fuel ih =>
    intro n ds hds c hc
    simp only [Nat.toDigitsCore] at hc
    by_cases h0 : n / 10 = 0
    · rw [if_pos h0] at hc
      rcases List.mem_cons.1 hc with h | h
      · subst h; exact digitChar_ne_underscore _ (Nat.mod_lt n (by omega))
      · exact hds c h
    · rw [if_neg h0] at hc
      refine ih (n / 10) (Nat.digitChar (n % 10) :: ds) ?_ c hc
      intro d hd
      rcases List.mem_cons.1 hd with h | h
      · subst h; exact digitChar_ne_underscore _ (Nat.mod_lt n (by omega))
      · exact hds d h

/-- No character of the decimal representation of a natural number is an
underscore. -/
theorem toString_nat_ne_underscore (n : Nat) :
    ∀ c ∈ (toString n).data, c ≠ '_' := by
  intro c hc
  exact toDigitsCore_ne_underscore (n + 1) n [] (fun d hd => absurd hd (List.not_mem_nil d)) c hc

/-- Splitting a string at the first underscore after an underscore-free
prefix is unambiguous. -/
theorem append_underscore_inj :
    ∀ (a : List Char), (∀ c ∈ a, c ≠ '_') → ∀ (b : List Char), (∀ c ∈ b, c ≠ '_') →
      ∀ (u v : List Char), a ++ '_' :: u = b ++ '_' :: v → a = b ∧ u = v := by
  intro a
  induction a with
  | nil =>
    intro _ b hb u v h
    cases b with
    | nil =>
      simp only [List.nil_append] at h
      injection h with _ h2
      exact ⟨rfl, h2⟩
    | cons d b' =>
      exfalso
      simp only [List.nil_append, List.cons_append] at h
      injection h with h1 _
      exact hb d (List.mem_cons_self d b') h1.symm
  | cons c a' ih =>
    intro ha b hb u v h
    cases b with
    | nil =>
      exfalso
      simp only [List.cons_append, List.nil_append] at h
      injection h with h1 _
      exact ha c (List.mem_cons_self c a') h1
    | cons d b' =>
      simp only [List.cons_append] at h
      injection h with h1 h2
      obtain ⟨hab, huv⟩ := ih (fun x hx => ha x (List.mem_cons_of_mem c hx)) b'
        (fun x hx => hb x (List.mem_cons_of_mem d hx)) u v h2
      exact ⟨by rw [h1, hab], huv⟩

/-- Pushing the accumulator of `Nat.toDigitsCore` out as an append. -/
theorem toDigitsCore_append (fuel : Nat) :
    ∀ (n : Nat) (ds : List Char),
      Nat.toDigitsCore 10 fuel n ds = Nat.toDigitsCore 10 fuel n [] ++ ds := by
  induction fuel with
  | zero => intro n ds; rfl
  | succ fuel ih =>
    intro n ds
    simp only [Nat.toDigitsCore]
    by_cases h0 : n / 10 = 0
    · rw [if_pos h0, if_pos h0]; rfl
    · rw [if_neg h0, if_neg h0, ih (n / 10) [Nat.digitChar (n % 10)],
        ih (n / 10) (Nat.digitChar (n % 10) :: ds), List.append_assoc]
      rfl

/-- The fuel of `Nat.toDigitsCore` is irrelevant once it exceeds the number. -/
theorem toDigitsCore_fuel (n : Nat) :
    ∀ (f f' : Nat) (ds : List Char), n < f → n < f' →
      Nat.toDigitsCore 10 f n ds = Nat.toDigitsCore 10 f' n ds := by
  induction n using Nat.strong_induction_on with
  | _ n ih =>
    intro f f' ds hf hf'
    cases f with
    | zero => omega
    | succ f =>
      cases f' with
      | zero => omega
      | succ f' =>
        simp only [Nat.toDigitsCore]
        by_cases h0 : n / 10 = 0
        · rw [if_pos h0, if_pos h0]
        · rw [if_neg h0, if_neg h0]
          exact ih (n / 10) (by omega) f f' _ (by omega) (by omega)

/-- Recursion shape of the decimal digits, small case. -/
theorem toDigits_lt_10 (n : Nat) (h : n < 10) :
    Nat.toDigits 10 n = [Nat.digitChar n] := by
  unfold Nat.toDigits
  simp only [Nat.toDigitsCore]
  rw [if_pos (Nat.div_eq_of_lt h), Nat.mod_eq_of_lt h]

/-- Recursion shape of the decimal digits, large case. -/
theorem toDigits_ge_10 (n : Nat) (h : 10 ≤ n) :
    Nat.toDigits 10 n = Nat.toDigits 10 (n / 10) ++ [Nat.digitChar (n % 10)] := by
  have h0 : ¬ n / 10 = 0 := by omega
  show Nat.toDigitsCore 10 (n + 1) n [] = _
  simp only [Nat.toDigitsCore]
  rw [if_neg h0, toDigitsCore_append n (n / 10) [Nat.digitChar (n % 10)]]
  show _ = Nat.toDigitsCore 10 (n / 10 + 1) (n / 10) [] ++ _
  rw [toDigitsCore_fuel (n / 10) n (n / 10 + 1) [] (by omega) (by omega)]

/-- The decimal representation is never empty. -/
theorem toDigits_ne_nil (n : Nat) : Nat.toDigits 10 n ≠ [] := by
  by_cases h : n < 10
  · rw [toDigits_lt_10 n h]; simp
  · rw [toDigits_ge_10 n (by omega)]; simp

/-- Digit characters are injective below 10. -/
theorem digitChar_inj (a b : Nat) (ha : a < 10) (hb : b < 10)
    (h : Nat.digitChar a = Nat.digitChar b) : a = b := by
  interval_cases a <;> interval_cases b <;> revert h <;> decide

/-- The decimal representation of a natural number determines the number. -/
theorem toDigits_inj (a : Nat) :
    ∀ b : Nat, Nat.toDigits 10 a = Nat.toDigits 10 b → a = b := by
  induction a using Nat.strong_induction_on with
  | _ a ih =>
    intro b h
    by_cases ha : a < 10 <;> by_cases hb : b < 10
    · rw [toDigits_lt_10 a ha, toDigits_lt_10 b hb] at h
      injection h with h1 _
      exact digitChar_inj a b ha hb h1
    · exfalso
      rw [toDigits_lt_10 a ha, toDigits_ge_10 b (by omega)] at h
      have hlen := congrArg List.length h
      simp only [List.length_cons, List.length_nil, List.length_append] at hlen
      have := toDigits_ne_nil (b / 10)
      have h0 : (Nat.toDigits 10 (b / 10)).length = 0 := by omega
      exact this (List.length_eq_zero.1 h0)
    · exfalso
      rw [toDigits_ge_10 a (by omega), toDigits_lt_10 b hb] at h
      have hlen := congrArg List.length h
      simp only [List.length_cons, List.length_nil, List.length_append] at hlen
      have := toDigits_ne_nil (a / 10)
      have h0 : (Nat.toDigits 10 (a / 10)).length = 0 := by omega
      exact this (List.length_eq_zero.1 h0)
    · rw [toDigits_ge_10 a (by omega), toDigits_ge_10 b (by omega)] at h
      obtain ⟨h1, h2⟩ := List.append_inj' h (by simp)
      have hdiv : a / 10 = b / 10 := ih (a / 10) (by omega) (b / 10) h1
      injection h2 with h3 _
      have hmod : a % 10 = b % 10 := digitChar_inj _ _ (by omega) (by omega) h3
      omega

/-- The decimal string of a natural number determines the number. -/
theorem natToString_inj (a b : Nat) (h : (toString a : String).data = (toString b : String).data) :
    a = b :=
  toDigits_inj a b h

/-! ### Filenames: injectivity and glob matching (C7, C8) -/

/-- Decomposition of the fetched basename at its first underscore. -/
theorem fetchBaseName_data (y m : Nat) :
    (fetchBaseName y m).data
      = (toString y).data
          ++ '_' :: (("months" : String).data ++ (fmt02 m).data
                      ++ ("_europe.grib" : String).data) := by
  simp only [fetchBaseName, String.data_append]
  simp [List.append_assoc]

/-- Zero-padded months are injective on the calendar months. -/
theorem fmt02_inj_bounded (m1 m2 : Nat) (h1 : 1 ≤ m1) (h2 : m1 ≤ 12)
    (h3 : 1 ≤ m2) (h4 : m2 ≤ 12) (h : (fmt02 m1).data = (fmt02 m2).data) : m1 = m2 := by
  interval_cases m1 <;> interval_cases m2 <;> revert h <;> decide

/-- The fetched basename determines year and month (for calendar months). -/
theorem fetchBaseName_inj (y1 m1 y2 m2 : Nat) (h1 : 1 ≤ m1) (h2 : m1 ≤ 12)
    (h3 : 1 ≤ m2) (h4 : m2 ≤ 12)
    (h : (fetchBaseName y1 m1).data = (fetchBaseName y2 m2).data) :
    y1 = y2 ∧ m1 = m2 := by
  rw [fetchBaseName_data, fetchBaseName_data] at h
  obtain ⟨hy, hu⟩ := append_underscore_inj _ (toString_nat_ne_underscore y1) _
    (toString_nat_ne_underscore y2) _ _ h
  refine ⟨natToString_inj y1 y2 hy, ?_⟩
  have h5 : ("months" : String).data ++ (fmt02 m1).data
      = ("months" : String).data ++ (fmt02 m2).data :=
    List.append_inj_left' hu rfl
  exact fmt02_inj_bounded m1 m2 h1 h2 h3 h4 (List.append_inj_right h5 rfl)

/-- C7: within one run (valid start and end months), two distinct
(year, month) pairs of the requested range are never written to the same
target file path. -/
theorem C7_target_injective (tp : String) (sy sm ey em : Nat)
    (h1 : 1 ≤ sm) (h2 : sm ≤ 12) (h3 : 1 ≤ em) (h4 : em ≤ 12) :
    ∀ p ∈ date_list sy sm ey em, ∀ q ∈ date_list sy sm ey em,
      p ≠ q → api_target tp p.1 p.2 ≠ api_target tp q.1 q.2 := by
  intro p hp q hq hne heq
  have hbp := date_list_month_bounds sy sm ey em h1 h2 h3 h4 p hp
  have hbq := date_list_month_bounds sy sm ey em h1 h2 h3 h4 q hq
  have hd := congrArg String.data heq
  simp only [api_target, String.data_append] at hd
  have hbase : (fetchBaseName p.1 p.2).data = (fetchBaseName q.1 q.2).data :=
    List.append_inj_right hd rfl
  obtain ⟨hy, hm⟩ := fetchBaseName_inj _ _ _ _ hbp.1 hbp.2 hbq.1 hbq.2 hbase
  exact hne (Prod.ext hy hm)

/-- Witness for C7: January and February 2020 target distinct paths. -/
theorem C7_target_injective_witness :
    api_target "d" 2020 1 ≠ api_target "d" 2020 2 :=
  C7_target_injective "d" 2020 1 2020 2 (by omega) (by omega) (by omega) (by omega)
    (2020, 1) (by decide) (2020, 2) (by decide) (by decide)

/-- A list is a Boolean prefix of itself followed by anything. -/
theorem isPrefixOf_append_self (l t : List Char) : l.isPrefixOf (l ++ t) = true := by
  induction l with
  | nil => cases t <;> rfl
  | cons a as ih => simp [List.isPrefixOf, ih]

/-- A list is a Boolean suffix of anything followed by itself. -/
theorem isSuffixOf_append_self (l t : List Char) : t.isSuffixOf (l ++ t) = true := by
  unfold List.isSuffixOf
  rw [List.reverse_append]
  exact isPrefixOf_append_self t.reverse l.reverse

/-- A Boolean prefix can be split off the larger list. -/
theorem eq_append_of_isPrefixOf :
    ∀ (p l : List Char), p.isPrefixOf l = true → ∃ t, l = p ++ t := by
  intro p
  induction p with
  | nil => intro l _; exact ⟨l, rfl⟩
  | cons a as ih =>
    intro l h
    cases l with
    | nil => simp [List.isPrefixOf] at h
    | cons b bs =>
      simp only [List.isPrefixOf, Bool.and_eq_true, beq_iff_eq] at h
      obtain ⟨t, ht⟩ := ih bs h.2
      exact ⟨t, by rw [List.cons_append, ← h.1, ht]⟩

/-- The fetched basename for year `y` matches year `y`'s glob pattern. -/
theorem matchesYear_fetchBaseName (y m : Nat) :
    matchesYear y (fetchBaseName y m) = true := by
  have hdecomp : (fetchBaseName y m).toList
      = (toString y ++ "_months").toList
          ++ ((fmt02 m).toList ++ ("_europe.grib" : String).toList) := by
    show (fetchBaseName y m).data = _
    simp [fetchBaseName, String.data_append, List.append_assoc]
  simp only [matchesYear, Bool.and_eq_true]
  refine ⟨⟨?_, ?_⟩, ?_⟩
  · rw [hdecomp]
    exact isPrefixOf_append_self _ _
  · rw [hdecomp, show (toString y ++ "_months").toList
        ++ ((fmt02 m).toList ++ ("_europe.grib" : String).toList)
      = ((toString y ++ "_months").toList ++ (fmt02 m).toList)
          ++ ("_europe.grib" : String).toList from by simp [List.append_assoc]]
    exact isSuffixOf_append_self _ _
  · rw [decide_eq_true_eq, hdecomp]
    simp [List.length_append]
    omega

/-- The fetched basename for year `y` matches no other year's glob pattern. -/
theorem matchesYear_fetchBaseName_ne (y m y' : Nat) (hne : y' ≠ y) :
    matchesYear y' (fetchBaseName y m) = false := by
  by_contra hmatch
  rw [Bool.not_eq_false] at hmatch
  simp only [matchesYear, Bool.and_eq_true] at hmatch
  obtain ⟨⟨hpre, _⟩, _⟩ := hmatch
  obtain ⟨t, ht⟩ := eq_append_of_isPrefixOf _ _ hpre
  have hsplit : ((toString y' ++ "_months").toList : List Char)
      = (toString y').data ++ '_' :: ("months" : String).data := by
    show (toString y' ++ "_months").data = _
    rw [String.data_append]
  have h1 : (fetchBaseName y m).data
      = (toString y').data ++ '_' :: (("months" : String).data ++ t) := by
    show (fetchBaseName y m).toList = _
    rw [ht, hsplit, List.append_assoc]
    rfl
  rw [fetchBaseName_data y m] at h1
  obtain ⟨hy, _⟩ := append_underscore_inj _ (toString_nat_ne_underscore y) _
    (toString_nat_ne_underscore y') _ _ h1
  exact hne (natToString_inj y' y hy.symm)

/-- C8: the basename written by the Fetcher for (y, m) matches the
Aggregator's glob pattern for year y and no other year's pattern, so a
directory entry carrying that name is globbed by year y and only by year y. -/
theorem C8_fetch_glob_roundtrip (y m : Nat) :
    matchesYear y (fetchBaseName y m) = true
    ∧ (∀ y', y' ≠ y → matchesYear y' (fetchBaseName y m) = false)
    ∧ ∀ (dir : List FsFile) (f : FsFile), f ∈ dir → f.name = fetchBaseName y m →
        (f ∈ globFiles dir y ∧ ∀ y', y' ≠ y → f ∉ globFiles dir y') := by
  refine ⟨matchesYear_fetchBaseName y m,
    fun y' h => matchesYear_fetchBaseName_ne y m y' h, ?_⟩
  intro dir f hf hname
  constructor
  · unfold globFiles
    rw [(List.mergeSort_perm _ fileLe).mem_iff, List.mem_filter]
    exact ⟨hf, by rw [hname]; exact matchesYear_fetchBaseName y m⟩
  · intro y' hy' hmem
    unfold globFiles at hmem
    rw [(List.mergeSort_perm _ fileLe).mem_iff, List.mem_filter] at hmem
    rw [hname, matchesYear_fetchBaseName_ne y m y' hy'] at hmem
    exact Bool.false_ne_true hmem.2

/-- Witness for C8 at year 2010, month 1, against year 2011. -/
theorem C8_fetch_glob_roundtrip_witness :
    matchesYear 2010 (fetchBaseName 2010 1) = true
    ∧ matchesYear 2011 (fetchBaseName 2010 1) = false
    ∧ (⟨fetchBaseName 2010 1, []⟩ : FsFile)
        ∈ globFiles [⟨fetchBaseName 2010 1, []⟩] 2010
    ∧ (⟨fetchBaseName 2010 1, []⟩ : FsFile)
        ∉ globFiles [⟨fetchBaseName 2010 1, []⟩] 2011 :=
  ⟨(C8_fetch_glob_roundtrip 2010 1).1,
   (C8_fetch_glob_roundtrip 2010 1).2.1 2011 (by decide),
   ((C8_fetch_glob_roundtrip 2010 1).2.2 _ _ (List.mem_cons_self _ _) rfl).1,
   ((C8_fetch_glob_roundtrip 2010 1).2.2 _ _ (List.mem_cons_self _ _) rfl).2 2011 (by decide)⟩

/-! ### Two-year aggregation (C2) -/

/-- A helper: a strict year gap gives a strict timestamp order. -/
theorem Time.lt_of_year_lt {a b : Time} (h : a.year < b.year) : Time.lt a b :=
  Or.inl h

/-- Years that all contribute nothing aggregate to nothing. -/
theorem flatMap_eq_nil_of_forall (f : Nat → List Row) :
    ∀ l : List Nat, (∀ y ∈ l, f y = []) → l.flatMap f = [] := by
  intro l
  induction l with
  | nil => intro _; rfl
  | cons a t ih =>
    intro h
    rw [List.flatMap_cons, h a (List.mem_cons_self a t), List.nil_append]
    exact ih (fun y hy => h y (List.mem_cons_of_mem a hy))

/-- Aggregating a year range in which a single year contributes rows yields
exactly that year's rows. -/
theorem flatMap_range'_support_one (f : Nat → List Row) :
    ∀ (n s Y : Nat), s ≤ Y → Y < s + n →
      (∀ y, s ≤ y → y < s + n → y ≠ Y → f y = []) →
      (List.range' s n).flatMap f = f Y := by
  intro n
  induction n with
  | zero => intro s Y h1 h2 _; omega
  | succ n ih =>
    intro s Y h1 h2 hsupp
    rw [List.range'_succ, List.flatMap_cons]
    by_cases hs : s = Y
    · subst hs
      have hnil : (List.range' (s + 1) n).flatMap f = [] := by
        apply flatMap_eq_nil_of_forall
        intro y hy
        rw [List.mem_range'_1] at hy
        exact hsupp y (by omega) (by omega) (by omega)
      rw [hnil, List.append_nil]
    · rw [hsupp s (le_refl s) (by omega) hs, List.nil_append]
      exact ih (s + 1) Y (by omega) (by omega)
        (fun y a b c => hsupp y (by omega) (by omega) c)

/-- Aggregating a year range in which exactly two years contribute rows
yields their rows in range order. -/
theorem flatMap_range'_support_two (f : Nat → List Row) :
    ∀ (n s Y1 Y2 : Nat), Y1 < Y2 → s ≤ Y1 → Y2 < s + n →
      (∀ y, s ≤ y → y < s + n → y ≠ Y1 → y ≠ Y2 → f y = []) →
      (List.range' s n).flatMap f = f Y1 ++ f Y2 := by
  intro n
  induction n with
  | zero => intro s Y1 Y2 h0 h1 h2 _; omega
  | succ n ih =>
    intro s Y1 Y2 h0 h1 h2 hsupp
    rw [List.range'_succ, List.flatMap_cons]
    by_cases hs : s = Y1
    · subst hs
      rw [flatMap_range'_support_one f n (s + 1) Y2 (by omega) (by omega)
        (fun y a b c => hsupp y (by omega) (by omega) (by omega) c)]
    · rw [hsupp s (le_refl s) (by omega) hs (by omega), List.nil_append]
      exact ih (s + 1) Y1 Y2 h0 (by omega) (by omega)
        (fun y a b c d => hsupp y (by omega) (by omega) c d)

/-- C2: with a file of year Y1 data and a file of year Y2 data (Y1 < Y2,
both within the requested range, all timestamps pairwise distinct, no row
all-missing, each file matching exactly its own year's pattern), the
combined dataset carries the union of the two files' timestamps in strictly
ascending order, and every returned row comes from the file whose year is
the row's calendar year. -/
theorem C2_two_year_union (inputs outputs : String) (save : Bool)
    (sy ey Y1 Y2 : Nat) (name1 name2 : String) (rows1 rows2 : List Row)
    (hY : Y1 < Y2) (hsy : sy ≤ Y1) (hey : Y2 ≤ ey)
    (hm11 : matchesYear Y1 name1 = true)
    (hm22 : matchesYear Y2 name2 = true)
    (hm21 : matchesYear Y1 name2 = false)
    (hm12 : matchesYear Y2 name1 = false)
    (hother : ∀ y, sy ≤ y → y ≤ ey → y ≠ Y1 → y ≠ Y2 →
        matchesYear y name1 = false ∧ matchesYear y name2 = false)
    (hyr1 : ∀ r ∈ rows1, r.valid_time.year = Y1)
    (hyr2 : ∀ r ∈ rows2, r.valid_time.year = Y2)
    (hnd : ((rows1 ++ rows2).map Row.valid_time).Nodup)
    (hmiss1 : ∀ r ∈ rows1, r.allMissing = false)
    (hmiss2 : ∀ r ∈ rows2, r.allMissing = false) :
    (∀ t, t ∈ ((aggregate_era5_land_timeseries inputs [⟨name1, rows1⟩, ⟨name2, rows2⟩]
            outputs sy ey save).ds.map Row.valid_time)
        ↔ t ∈ (rows1 ++ rows2).map Row.valid_time)
    ∧ ((aggregate_era5_land_timeseries inputs [⟨name1, rows1⟩, ⟨name2, rows2⟩]
          outputs sy ey save).ds.map Row.valid_time).Pairwise Time.lt
    ∧ (∀ r ∈ (aggregate_era5_land_timeseries inputs [⟨name1, rows1⟩, ⟨name2, rows2⟩]
          outputs sy ey save).ds,
        (r ∈ rows1 ∧ r.valid_time.year = Y1) ∨ (r ∈ rows2 ∧ r.valid_time.year = Y2)) := by
  have hfil1 : List.filter (fun f => matchesYear Y1 f.name)
      ([⟨name1, rows1⟩, ⟨name2, rows2⟩] : List FsFile) = [⟨name1, rows1⟩] := by
    simp [List.filter_cons, hm11, hm21]
  have hfil2 : List.filter (fun f => matchesYear Y2 f.name)
      ([⟨name1, rows1⟩, ⟨name2, rows2⟩] : List FsFile) = [⟨name2, rows2⟩] := by
    simp [List.filter_cons, hm22, hm12]
  have hglob1 : globFiles [⟨name1, rows1⟩, ⟨name2, rows2⟩] Y1 = [⟨name1, rows1⟩] := by
    unfold globFiles
    rw [hfil1]
    simp
  have hglob2 : globFiles [⟨name1, rows1⟩, ⟨name2, rows2⟩] Y2 = [⟨name2, rows2⟩] := by
    unfold globFiles
    rw [hfil2]
    simp
  have hglobO : ∀ y, sy ≤ y → y ≤ ey → y ≠ Y1 → y ≠ Y2 →
      globFiles [⟨name1, rows1⟩, ⟨name2, rows2⟩] y = [] := by
    intro y a b c d
    have hfilO : List.filter (fun f => matchesYear y f.name)
        ([⟨name1, rows1⟩, ⟨name2, rows2⟩] : List FsFile) = [] := by
      simp [List.filter_cons, (hother y a b c d).1, (hother y a b c d).2]
    unfold globFiles
    rw [hfilO]
    simp
  have hperY1 : perYearRows [⟨name1, rows1⟩, ⟨name2, rows2⟩] Y1 = processYear Y1 rows1 := by
    unfold perYearRows
    rw [hglob1]
    simp
  have hperY2 : perYearRows [⟨name1, rows1⟩, ⟨name2, rows2⟩] Y2 = processYear Y2 rows2 := by
    unfold perYearRows
    rw [hglob2]
    simp
  have hkeep1 : ∀ r ∈ rows1.mergeSort rowLe, (!r.allMissing) = true := by
    intro r hr
    have hmem : r ∈ rows1 := (List.mergeSort_perm rows1 rowLe).mem_iff.1 hr
    simp [hmiss1 r hmem]
  have hkeep2 : ∀ r ∈ rows2.mergeSort rowLe, (!r.allMissing) = true := by
    intro r hr
    have hmem : r ∈ rows2 := (List.mergeSort_perm rows2 rowLe).mem_iff.1 hr
    simp [hmiss2 r hmem]
  have hfy1 : rows1.filter (fun r => r.valid_time.year == Y1) = rows1 :=
    List.filter_eq_self.2 (fun r hr => by simp [hyr1 r hr])
  have hfy2 : rows2.filter (fun r => r.valid_time.year == Y2) = rows2 :=
    List.filter_eq_self.2 (fun r hr => by simp [hyr2 r hr])
  have hfk1 : (rows1.mergeSort rowLe).filter (fun r => !r.allMissing)
      = rows1.mergeSort rowLe := List.filter_eq_self.2 hkeep1
  have hfk2 : (rows2.mergeSort rowLe).filter (fun r => !r.allMissing)
      = rows2.mergeSort rowLe := List.filter_eq_self.2 hkeep2
  have hproc1 : processYear Y1 rows1 = rows1.mergeSort rowLe := by
    unfold processYear
    rw [hfy1, hfk1]
  have hproc2 : processYear Y2 rows2 = rows2.mergeSort rowLe := by
    unfold processYear
    rw [hfy2, hfk2]
  have hndapp := hnd
  rw [List.map_append] at hndapp
  have hnd1 : (rows1.map Row.valid_time).Nodup := (List.nodup_append.1 hndapp).1
  have hnd2 : (rows2.map Row.valid_time).Nodup := (List.nodup_append.1 hndapp).2.1
  have hstrict1 := processYear_strict_of_nodup Y1 rows1 hnd1
  have hstrict2 := processYear_strict_of_nodup Y2 rows2 hnd2
  have hmem1 : ∀ r, r ∈ processYear Y1 rows1 ↔ r ∈ rows1 := by
    intro r
    rw [hproc1]
    exact (List.mergeSort_perm rows1 rowLe).mem_iff
  have hmem2 : ∀ r, r ∈ processYear Y2 rows2 ↔ r ∈ rows2 := by
    intro r
    rw [hproc2]
    exact (List.mergeSort_perm rows2 rowLe).mem_iff
  have hds : (aggregate_era5_land_timeseries inputs [⟨name1, rows1⟩, ⟨name2, rows2⟩]
      outputs sy ey save).ds = processYear Y1 rows1 ++ processYear Y2 rows2 := by
    rw [aggregate_ds_eq, yearsRange,
      flatMap_range'_support_two (perYearRows [⟨name1, rows1⟩, ⟨name2, rows2⟩])
        (ey + 1 - sy) sy Y1 Y2 hY hsy (by omega)
        (fun y a b c d => by
          unfold perYearRows
          rw [hglobO y a (by omega) c d]
          rfl),
      hperY1, hperY2]
  have hmap1 : ∀ t, t ∈ (processYear Y1 rows1).map Row.valid_time
      ↔ t ∈ rows1.map Row.valid_time := by
    intro t
    rw [hproc1]
    exact ((List.mergeSort_perm rows1 rowLe).map Row.valid_time).mem_iff
  have hmap2 : ∀ t, t ∈ (processYear Y2 rows2).map Row.valid_time
      ↔ t ∈ rows2.map Row.valid_time := by
    intro t
    rw [hproc2]
    exact ((List.mergeSort_perm rows2 rowLe).map Row.valid_time).mem_iff
  refine ⟨?_, ?_, ?_⟩
  · intro t
    rw [hds, List.map_append, List.mem_append, List.map_append, List.mem_append,
      hmap1 t, hmap2 t]
  · rw [hds, List.map_append, List.pairwise_append]
    refine ⟨List.pairwise_map.2 hstrict1, List.pairwise_map.2 hstrict2, ?_⟩
    intro a ha b hb
    rcases List.mem_map.1 ha with ⟨r1, hr1, rfl⟩
    rcases List.mem_map.1 hb with ⟨r2, hr2, rfl⟩
    have hy1 : r1.valid_time.year = Y1 := hyr1 r1 ((hmem1 r1).1 hr1)
    have hy2 : r2.valid_time.year = Y2 := hyr2 r2 ((hmem2 r2).1 hr2)
    exact Time.lt_of_year_lt (by omega)
  · intro r hr
    rw [hds] at hr
    rcases List.mem_append.1 hr with h | h
    · exact Or.inl ⟨(hmem1 r).1 h, hyr1 r ((hmem1 r).1 h)⟩
    · exact Or.inr ⟨(hmem2 r).1 h, hyr2 r ((hmem2 r).1 h)⟩

/-- Witness for C2 with one synthetic file per year for 2010 and 2011. -/
theorem C2_two_year_union_witness :
    (∀ t, t ∈ ((aggregate_era5_land_timeseries "in"
            [⟨"2010_months01_europe.grib", [⟨⟨2010, 0⟩, [some 1]⟩]⟩,
             ⟨"2011_months01_europe.grib", [⟨⟨2011, 0⟩, [some 2]⟩]⟩]
            "out" 2010 2011 true).ds.map Row.valid_time)
        ↔ t ∈ (([⟨⟨2010, 0⟩, [some 1]⟩] ++ [⟨⟨2011, 0⟩, [some 2]⟩] : List Row)).map
              Row.valid_time)
    ∧ ((aggregate_era5_land_timeseries "in"
          [⟨"2010_months01_europe.grib", [⟨⟨2010, 0⟩, [some 1]⟩]⟩,
           ⟨"2011_months01_europe.grib", [⟨⟨2011, 0⟩, [some 2]⟩]⟩]
          "out" 2010 2011 true).ds.map Row.valid_time).Pairwise Time.lt
    ∧ (∀ r ∈ (aggregate_era5_land_timeseries "in"
          [⟨"2010_months01_europe.grib", [⟨⟨2010, 0⟩, [some 1]⟩]⟩,
           ⟨"2011_months01_europe.grib", [⟨⟨2011, 0⟩, [some 2]⟩]⟩]
          "out" 2010 2011 true).ds,
        (r ∈ ([⟨⟨2010, 0⟩, [some 1]⟩] : List Row) ∧ r.valid_time.year = 2010)
        ∨ (r ∈ ([⟨⟨2011, 0⟩, [some 2]⟩] : List Row) ∧ r.valid_time.year = 2011)) :=
  C2_two_year_union "in" "out" true 2010 2011 2010 2011
    "2010_months01_europe.grib" "2011_months01_europe.grib"
    [⟨⟨2010, 0⟩, [some 1]⟩] [⟨⟨2011, 0⟩, [some 2]⟩]
    (by omega) (by omega) (by omega)
    (by decide) (by decide) (by decide) (by decide)
    (fun y a b c d => (by omega : False).elim)
    (by decide) (by decide) (by decide) (by decide) (by decide)

end ERA5
